import Mathlib

/-!
Shallow embedding of the Arvados `DiskCache` (a disk-backed cache layer
wrapping a `KeepGateway`), together with proofs about its path layout,
read/write data plane, heldopen file-handle pool, and tidy (eviction)
subsystem.

Go strings are modelled as `List Char`; file contents as `List Nat`
(byte values); the on-disk state as an association list from path to
contents.  I/O operations that can fail in the real system (open,
flock, seek, copy, close, rename) are driven by explicit boolean
fault-injection environments, and the wrapped upstream gateway is an
abstract record of response functions.  Go panics (out-of-range string
slicing, assignment into a nil map) are modelled by `Option`, `none`
meaning the operation faults instead of returning.
-/

/-- Go strings, modelled as character lists. -/
abbrev GoStr := List Char

/-- File system contents: association list from path to file bytes. -/
abbrev Fs := List (GoStr × List Nat)

/-- Look up a file's contents. -/
def Fs.lookup (fs : Fs) (k : GoStr) : Option (List Nat) :=
  match fs with
  | [] => none
  | (k2, v) :: rest => if k2 = k then some v else Fs.lookup rest k

/-- Remove a file (os.Remove / the source half of os.Rename). -/
def Fs.eraseKey : Fs → GoStr → Fs
  | [], _ => []
  | (k2, v) :: rest, k =>
    if k2 = k then Fs.eraseKey rest k else (k2, v) :: Fs.eraseKey rest k

/-- Create or overwrite a file. -/
def Fs.insert (fs : Fs) (k : GoStr) (v : List Nat) : Fs :=
  (k, v) :: Fs.eraseKey fs k

/-- `const cacheFileSuffix = ".keepcacheblock"`. -/
def cacheFileSuffix : GoStr := ".keepcacheblock".toList

/-- `const tmpFileSuffix = ".tmp"`. -/
def tmpFileSuffix : GoStr := ".tmp".toList

/-- Helper for `goIndex`: index of the first occurrence of `c`. -/
def goIndexAux : GoStr → Char → Option Nat
  | [], _ => none
  | x :: xs, c => if x = c then some 0 else (goIndexAux xs c).map (· + 1)

/-- `strings.Index(s, c)`: index of the first occurrence of `c` in `s`,
or -1 if absent. -/
def goIndex (s : GoStr) (c : Char) : Int :=
  match goIndexAux s c with
  | some i => (i : Int)
  | none => -1

/-- The hash part of a locator as `DiskCache.cacheFile` computes it:
everything before the first `+` when that `+` occurs at a positive
index (`if i := strings.Index(hash, "+"); i > 0`), otherwise the whole
locator. -/
def locatorHash (locator : GoStr) : GoStr :=
  let i := goIndex locator '+'
  if 0 < i then locator.take i.toNat else locator

/-- `DiskCache.cacheFile`: committed cache path for a locator,
`filepath.Join(cache.Dir, hash[:3], hash+cacheFileSuffix)`.  The Go
slice expression `hash[:3]` panics when the hash has fewer than three
characters; the panic is modelled as `none`. -/
def cacheFile (dir locator : GoStr) : Option GoStr :=
  let hash := locatorHash locator
  if hash.length < 3 then none
  else some (dir ++ ('/' :: hash.take 3) ++ ('/' :: (hash ++ cacheFileSuffix)))

/-- The hash part of a locator as the spec describes it: the part
before the first `+`. -/
def specHash (locator : GoStr) : GoStr := locator.takeWhile (fun c => c ≠ '+')

/-- The remainder of a locator after its spec-level hash. -/
def specRest (locator : GoStr) : GoStr := locator.drop (specHash locator).length

/-- Modelled from the spec's words (for comparison with `cacheFile`):
"the committed path is `D / first3(hash(L)) / (hash(L) || rest(L)) || suffix`". -/
def specCacheFilePath (dir locator : GoStr) : GoStr :=
  dir ++ ('/' :: (specHash locator).take 3)
      ++ ('/' :: (specHash locator ++ specRest locator ++ cacheFileSuffix))

theorem goIndexAux_spec (s : GoStr) (c : Char) :
    goIndexAux s c =
      if c ∈ s then some (s.takeWhile (fun x => x ≠ c)).length else none := by
  induction s with
  | nil => simp [goIndexAux]
  | cons x xs ih =>
    by_cases hx : x = c
    · subst hx
      simp [goIndexAux, List.takeWhile]
    · simp only [goIndexAux, if_neg hx, ih, List.mem_cons]
      by_cases hm : c ∈ xs
      · simp [hm, List.takeWhile, Ne.symm hx, hx]
      · simp [hm, hx, Ne.symm hx]

theorem take_length_takeWhile (p : Char → Bool) (s : GoStr) :
    s.take (s.takeWhile p).length = s.takeWhile p := by
  induction s with
  | nil => simp
  | cons x xs ih =>
    by_cases hx : p x
    · simp [List.takeWhile, hx, ih]
    · simp [List.takeWhile, hx]

/-- When the locator has a `+` somewhere past its first character, the
code's hash agrees with the spec's hash. -/
theorem locatorHash_eq_specHash (locator : GoStr)
    (h0 : ¬ (specHash locator).length = 0) :
    locatorHash locator = specHash locator := by
  unfold locatorHash
  by_cases hm : '+' ∈ locator
  · have hidx : goIndex locator '+' = ((specHash locator).length : Int) := by
      simp [goIndex, goIndexAux_spec, hm, specHash]
    have hpos : (0 : Int) < goIndex locator '+' := by
      rw [hidx]
      exact_mod_cast Nat.pos_of_ne_zero h0
    rw [if_pos hpos, hidx]
    simpa [specHash] using take_length_takeWhile (fun x => decide (x ≠ '+')) locator
  · have hidx : goIndex locator '+' = -1 := by
      simp [goIndex, goIndexAux_spec, hm]
    rw [hidx, if_neg (by omega)]
    have hself : locator.takeWhile (fun x => decide (x ≠ '+')) = locator := by
      apply List.takeWhile_eq_self_iff.mpr
      intro x hx
      simp only [ne_eq, decide_eq_true_eq]
      intro hcontra
      exact hm (hcontra ▸ hx)
    unfold specHash
    exact hself.symm

/-- C5 amended, general form: for every locator whose spec-level hash
(the part before the first `+`) has at least three characters, the
committed path is `D / first3(hash) / hash ++ suffix` — the remainder
of the locator after the hash is not part of the file name. -/
theorem cacheFile_formula (dir locator : GoStr)
    (h3 : 3 ≤ (specHash locator).length) :
    cacheFile dir locator =
      some (dir ++ ('/' :: (specHash locator).take 3)
                ++ ('/' :: (specHash locator ++ cacheFileSuffix))) := by
  have h0 : ¬ (specHash locator).length = 0 := by omega
  unfold cacheFile
  rw [locatorHash_eq_specHash locator h0]
  rw [if_neg (by omega)]

/-- Error values that the cache layer can produce or propagate.
`upstreamErr` stands for an arbitrary error coming back from the
wrapped KeepGateway; the other constructors correspond to the error
returns in the DiskCache source. -/
inductive Err where
  | upstreamErr (code : Nat)
  | flockShErr
  | flockExErr
  | seekEndErr
  | seekStartErr
  | readShortErr
  | copyErr
  | sizeMismatch (n expected : Int)
  | hashMismatch (hash expected : GoStr)
  | invalidLocatorNoSizeHint
  | invalidLocatorBadSizeHint
  deriving DecidableEq, Repr

/-- `BlockWriteResponse` (only the locator field matters here). -/
structure BlockWriteResponse where
  locator : GoStr
  deriving DecidableEq, Repr

/-- The wrapped KeepGateway, as a black box: what each upstream call
would return.  `readAtFn locator dstLen offset` yields the byte count,
the bytes placed into `dst`, and the error; `blockReadFn locator`
yields the bytes streamed to the caller's writer and the error. -/
structure Upstream where
  readAtFn : GoStr → Nat → Nat → Nat × List Nat × Option Err
  blockReadFn : GoStr → List Nat × Option Err
  blockWriteResp : BlockWriteResponse
  blockWriteErr : Option Err

/-- `f.ReadAt(dst, offset)` on a file with contents `c` and `len(dst) =
dstLen`: a full read returns `(dstLen, nil)`; reading past the end
returns the available bytes and a non-nil error. -/
def goReadAt (c : List Nat) (dstLen offset : Nat) : Nat × List Nat × Option Err :=
  if offset + dstLen ≤ c.length then (dstLen, (c.drop offset).take dstLen, none)
  else (c.length - offset, (c.drop offset).take dstLen, some .readShortErr)

/-- Fault-injection environment for `DiskCache.ReadAt`: which of the
I/O steps fail, and whether the heldopen quick path has a healthy
entry for the file. -/
structure ReadAtEnv where
  quickHealthy : Bool
  openFail : Bool
  flockShFail : Bool
  seekEndFail1 : Bool
  flockExFail : Bool
  seekEndFail2 : Bool
  seekStartFail : Bool
  deriving DecidableEq, Repr

/-- Result of a `ReadAt` or quick read: byte count, bytes placed into
`dst`, error, number of upstream gateway calls made, final disk state. -/
structure ReadResult where
  n : Nat
  data : List Nat
  err : Option Err
  upstreamCalls : Nat
  fs : Fs
  deriving DecidableEq, Repr

/-- `DiskCache.quickReadAt`, data-plane view: succeeds only when the
pool entry is healthy and the cache file is long enough for a full
positional read; any error (including a short read) makes `ReadAt`
fall through to the slow path, so only the success case is returned. -/
def quickReadOk (env : ReadAtEnv) (fs : Fs) (path : GoStr)
    (dstLen offset : Nat) : Option ReadResult :=
  if env.quickHealthy then
    match Fs.lookup fs path with
    | some c =>
      if offset + dstLen ≤ c.length then
        some ⟨dstLen, (c.drop offset).take dstLen, none, 0, fs⟩
      else none
    | none => none
  else none

/-- `DiskCache.ReadAt`: quick path, then open-or-create (delegating to
the upstream on open failure), shared flock, size check, exclusive
flock and fill from the upstream when the file is short, final
positional read.  `none` models the Go panic in `cacheFile` when the
locator hash has fewer than three characters. -/
def readAt (dir : GoStr) (u : Upstream) (env : ReadAtEnv) (fs : Fs)
    (locator : GoStr) (dstLen offset : Nat) : Option ReadResult :=
  match cacheFile dir locator with
  | none => none
  | some path =>
    match quickReadOk env fs path dstLen offset with
    | some r => some r
    | none =>
      if env.openFail then
        let r := u.readAtFn locator dstLen offset
        some ⟨r.1, r.2.1, r.2.2, 1, fs⟩
      else
        let fs1 := if (Fs.lookup fs path).isSome then fs else Fs.insert fs path []
        if env.flockShFail then some ⟨0, [], some .flockShErr, 0, fs1⟩
        else if env.seekEndFail1 then some ⟨0, [], some .seekEndErr, 0, fs1⟩
        else
          let size := ((Fs.lookup fs1 path).getD []).length
          if size < dstLen + offset ∧ env.flockExFail then
            some ⟨0, [], some .flockExErr, 0, fs1⟩
          else if env.seekEndFail2 then some ⟨0, [], some .seekEndErr, 0, fs1⟩
          else if size < dstLen + offset then
            if env.seekStartFail then some ⟨0, [], some .seekStartErr, 0, fs1⟩
            else
              let br := u.blockReadFn locator
              let fs2 := Fs.insert fs1 path br.1
              match br.2 with
              | some e => some ⟨0, [], some e, 1, fs2⟩
              | none =>
                let r := goReadAt br.1 dstLen offset
                some ⟨r.1, r.2.1, r.2.2, 1, fs2⟩
          else
            let c := (Fs.lookup fs1 path).getD []
            let r := goReadAt c dstLen offset
            some ⟨r.1, r.2.1, r.2.2, 0, fs1⟩

/-- `BlockWriteOptions`: the fields DiskCache.BlockWrite reads.  The
source to copy is `Data` when non-nil, otherwise `Reader`. -/
structure BlockWriteOpts where
  Data : Option (List Nat)
  Reader : List Nat
  DataSize : Int
  Hash : GoStr
  deriving DecidableEq, Repr

/-- Fault-injection environment for `DiskCache.BlockWrite`.
`feederErrDelivered` models the `len(copyerr) > 0` check: whether a
feeder error sent on the channel was there by the time the upstream
call returned and the check ran. -/
structure BlockWriteEnv where
  tmpOpenFail : Bool
  copyFail : Bool
  closeFail : Bool
  renameFail : Bool
  feederErrDelivered : Bool
  deriving DecidableEq, Repr

/-- What the feeder goroutine left behind: the error it sent on
`copyerr` (if any), the committed cache path (if it renamed the temp
file into place), and the resulting disk state. -/
structure FeederResult where
  copyerr : Option Err
  committed : Option GoStr
  fs : Fs
  deriving DecidableEq, Repr

/-- The feeder goroutine of `DiskCache.BlockWrite`: copy the source
into the temp file, check the size hint, close the temp file, check
the MD5 hash, and rename into the committed path; the deferred
`os.Remove(tmpfilename)` runs on every exit path.  `md5hex` is the
(stdlib) MD5 hex digest, kept abstract.  `none` models the `hash[:3]`
panic inside `cacheFile` for a too-short digest. -/
def feeder (dir : GoStr) (md5hex : List Nat → GoStr) (env : BlockWriteEnv)
    (fs : Fs) (tmpname : GoStr) (opts : BlockWriteOpts) : Option FeederResult :=
  let src := match opts.Data with | some d => d | none => opts.Reader
  let fsT := Fs.insert fs tmpname src
  if env.copyFail then some ⟨some .copyErr, none, Fs.eraseKey fsT tmpname⟩
  else if 0 < opts.DataSize ∧ opts.DataSize ≠ (src.length : Int) then
    some ⟨some (.sizeMismatch (src.length : Int) opts.DataSize), none,
          Fs.eraseKey fsT tmpname⟩
  else if env.closeFail then some ⟨none, none, Fs.eraseKey fsT tmpname⟩
  else
    let hash := md5hex src
    if opts.Hash ≠ [] ∧ opts.Hash ≠ hash then
      some ⟨some (.hashMismatch hash opts.Hash), none, Fs.eraseKey fsT tmpname⟩
    else
      match cacheFile dir hash with
      | none => none
      | some path =>
        if env.renameFail then some ⟨none, none, Fs.eraseKey fsT tmpname⟩
        else some ⟨none, some path,
                   Fs.eraseKey (Fs.insert (Fs.eraseKey fsT tmpname) path src) tmpname⟩

/-- Result of `DiskCache.BlockWrite`: response and error returned to
the caller, committed cache path (if any), final disk state, number of
upstream gateway calls. -/
structure BlockWriteOutcome where
  resp : BlockWriteResponse
  err : Option Err
  committed : Option GoStr
  fs : Fs
  upstreamCalls : Nat
  deriving DecidableEq, Repr

/-- `DiskCache.BlockWrite`: open the temp file (delegating to the
upstream on failure), run the feeder, call the upstream through the
pipe, and apply the error-precedence rule `if len(copyerr) > 0 { err =
<-copyerr }`. -/
def blockWrite (dir : GoStr) (md5hex : List Nat → GoStr) (u : Upstream)
    (env : BlockWriteEnv) (fs : Fs) (tmpname : GoStr) (opts : BlockWriteOpts) :
    Option BlockWriteOutcome :=
  if env.tmpOpenFail then
    some ⟨u.blockWriteResp, u.blockWriteErr, none, fs, 1⟩
  else
    match feeder dir md5hex env fs tmpname opts with
    | none => none
    | some fr =>
      let err := if fr.copyerr.isSome && env.feederErrDelivered
                 then fr.copyerr else u.blockWriteErr
      some ⟨u.blockWriteResp, err, fr.committed, fr.fs, 1⟩

/-- `strconv.ParseInt(s, 10, 32)` helper: the digits, accumulated. -/
def parseDigitsAux : GoStr → Nat → Option Nat
  | [], acc => some acc
  | c :: rest, acc =>
    if '0' ≤ c ∧ c ≤ '9' then
      parseDigitsAux rest (acc * 10 + (c.toNat - '0'.toNat))
    else none

/-- `strconv.ParseInt(s, 10, 32)`: optional sign, at least one decimal
digit, value within int32 range; `none` is a parse error. -/
def parseInt32 (s : GoStr) : Option Int :=
  let signAndDigits : Bool × GoStr :=
    match s with
    | '+' :: rest => (false, rest)
    | '-' :: rest => (true, rest)
    | other => (false, other)
  match signAndDigits.2 with
  | [] => none
  | digits =>
    match parseDigitsAux digits 0 with
    | none => none
    | some v =>
      let i : Int := if signAndDigits.1 then -(v : Int) else (v : Int)
      if i < -(2 ^ 31) ∨ (2 ^ 31 - 1 : Int) < i then none else some i

/-- Fault-injection environment for `DiskCache.BlockRead`. -/
structure BlockReadEnv where
  openFail : Bool
  flockShFail : Bool
  seekEndFail : Bool
  seekStartFail : Bool
  flockExFail : Bool
  deriving DecidableEq, Repr

/-- Result of `DiskCache.BlockRead`: byte count, bytes streamed to the
caller's writer, error, upstream calls, final disk state. -/
structure BlockReadResult where
  n : Nat
  output : List Nat
  err : Option Err
  upstreamCalls : Nat
  fs : Fs
  deriving DecidableEq, Repr

/-- The size-hint substring `BlockRead` extracts from a locator: the
text after the first `+` and before the next `+` (when the next `+` is
at a positive index of the remainder). -/
def sizeHintStr (locator : GoStr) : GoStr :=
  let i := goIndex locator '+'
  let sizestr0 := locator.drop (i.toNat + 1)
  let j := goIndex sizestr0 '+'
  if 0 < j then sizestr0.take j.toNat else sizestr0

/-- `DiskCache.BlockRead`: compute the cache path, open or create the
cache file (delegating to the upstream on open failure), validate the
locator's size hint, lock and measure the file, stream it if complete,
otherwise fill from the upstream through a tee. -/
def blockRead (dir : GoStr) (u : Upstream) (env : BlockReadEnv) (fs : Fs)
    (locator : GoStr) : Option BlockReadResult :=
  match cacheFile dir locator with
  | none => none
  | some path =>
    if env.openFail then
      let r := u.blockReadFn locator
      some ⟨r.1.length, r.1, r.2, 1, fs⟩
    else
      let fs1 := if (Fs.lookup fs path).isSome then fs else Fs.insert fs path []
      let i := goIndex locator '+'
      if i < 0 ∨ (locator.length : Int) ≤ i then
        some ⟨0, [], some .invalidLocatorNoSizeHint, 0, fs1⟩
      else
        match parseInt32 (sizeHintStr locator) with
        | none => some ⟨0, [], some .invalidLocatorBadSizeHint, 0, fs1⟩
        | some blocksize =>
          if blocksize < 0 then
            some ⟨0, [], some .invalidLocatorBadSizeHint, 0, fs1⟩
          else if env.flockShFail then some ⟨0, [], some .flockShErr, 0, fs1⟩
          else if env.seekEndFail then some ⟨0, [], some .seekEndErr, 0, fs1⟩
          else if env.seekStartFail then some ⟨0, [], some .seekStartErr, 0, fs1⟩
          else
            let c := (Fs.lookup fs1 path).getD []
            if (c.length : Int) = blocksize then
              some ⟨c.length, c, none, 0, fs1⟩
            else if env.flockExFail then some ⟨0, [], some .flockExErr, 0, fs1⟩
            else
              let br := u.blockReadFn locator
              let fs2 := Fs.insert fs1 path br.1
              match br.2 with
              | some e => some ⟨br.1.length, br.1, some e, 1, fs2⟩
              | none => some ⟨br.1.length, br.1, none, 1, fs2⟩

/-- The capacity the heldopen pool computes on first use from
`RLIMIT_NOFILE`: 256 when the query fails, 10000 when the soft limit
exceeds 40000, else a quarter of the soft limit. -/
def computeHeldopenMax (rlim : Option Nat) : Nat :=
  match rlim with
  | none => 256
  | some l => if l > 40000 then 10000 else l / 4

/-- The heldopen pool state: the map (Go distinguishes a nil map,
`none`, from an empty one) as its list of keys, and the cached
`heldopenMax` (0 = not yet computed). -/
structure PoolState where
  heldopen : Option (List GoStr)
  heldopenMax : Nat
  deriving DecidableEq, Repr

/-- The pool state a fresh `DiskCache` starts from. -/
def initPool : PoolState := ⟨none, 0⟩

/-- Number of entries in the heldopen map (`len` of a nil map is 0). -/
def poolSize (st : PoolState) : Nat := (st.heldopen.getD []).length

/-- The map manipulation performed under `heldopenLock` by one
`quickReadAt` call for key `key`, with the rlimit query answering
`rlim`: compute `heldopenMax` if unset; reuse an existing entry;
otherwise make the map if nil, or — when over capacity — detach the
map for background closing, set it to nil, and then publish the new
entry.  Publishing into the nil map is a Go runtime panic, modelled as
`none`. -/
def quickInsert (rlim : Option Nat) (st : PoolState) (key : GoStr) :
    Option PoolState :=
  let mx := if st.heldopenMax = 0 then computeHeldopenMax rlim else st.heldopenMax
  match st.heldopen with
  | none => some ⟨some [key], mx⟩
  | some m =>
    if key ∈ m then some ⟨some m, mx⟩
    else if m.length > mx then none
    else some ⟨some (key :: m), mx⟩

/-- One step of a pool run: propagate a panic, else insert. -/
def insertStep (rlim : Option Nat) (acc : Option PoolState) (key : GoStr) :
    Option PoolState :=
  match acc with
  | none => none
  | some st => quickInsert rlim st key

/-- Run a sequence of `quickReadAt` insertions from the initial pool
state; `none` as soon as one of them panics. -/
def runInserts (rlim : Option Nat) (keys : List GoStr) : Option PoolState :=
  keys.foldl (insertStep rlim) (some initPool)

/-- One tidy-scan entry: path, access time, size. -/
structure TidyEnt where
  path : GoStr
  atime : Int
  size : Int
  deriving DecidableEq, Repr

/-- Insert an entry into a list sorted by ascending access time. -/
def insertByAtime (e : TidyEnt) : List TidyEnt → List TidyEnt
  | [] => [e]
  | x :: xs => if e.atime < x.atime then e :: x :: xs else x :: insertByAtime e xs

/-- `sort.Slice(ents, func(i, j) { return ents[i].atime.Before(ents[j].atime) })`:
sort entries by access time, oldest first. -/
def sortByAtime : List TidyEnt → List TidyEnt
  | [] => []
  | e :: rest => insertByAtime e (sortByAtime rest)

/-- Total size of a list of entries. -/
def totalSize (ents : List TidyEnt) : Int := (ents.map TidyEnt.size).sum

/-- The deletion loop of `DiskCache.tidy`: delete entries in order,
decrementing the running total, and break as soon as it is within the
budget.  Returns the deleted entries and the final total. -/
def trimLoop (maxsize : Int) : List TidyEnt → Int → List TidyEnt × Int
  | [], total => ([], total)
  | e :: rest, total =>
    let total2 := total - e.size
    if total2 ≤ maxsize then ([e], total2)
    else
      let r := trimLoop maxsize rest total2
      (e :: r.1, r.2)

/-- The trimming part of `DiskCache.tidy`, after the scan: when the
scanned total exceeds `maxsize`, sort by access time ascending and run
the deletion loop. -/
def tidyTrim (ents : List TidyEnt) (maxsize : Int) : List TidyEnt × Int :=
  let total := totalSize ents
  if total ≤ maxsize then ([], total)
  else trimLoop maxsize (sortByAtime ents) total

theorem Fs.lookup_insert (fs : Fs) (k : GoStr) (v : List Nat) :
    Fs.lookup (Fs.insert fs k v) k = some v := by
  simp [Fs.insert, Fs.lookup]

theorem Fs.lookup_eraseKey_ne (fs : Fs) (k t : GoStr) (h : k ≠ t) :
    Fs.lookup (Fs.eraseKey fs t) k = Fs.lookup fs k := by
  induction fs with
  | nil => rfl
  | cons kv rest ih =>
    rcases kv with ⟨k2, v⟩
    by_cases h2 : k2 = t
    · have hne : ¬ k2 = k := fun hc => h (hc ▸ h2)
      simp only [Fs.eraseKey, if_pos h2, Fs.lookup, if_neg hne]
      exact ih
    · simp only [Fs.eraseKey, if_neg h2, Fs.lookup]
      by_cases hk : k2 = k
      · simp [hk]
      · simp [hk, ih]

theorem Fs.lookup_insert_ne (fs : Fs) (k t : GoStr) (v : List Nat) (h : k ≠ t) :
    Fs.lookup (Fs.insert fs t v) k = Fs.lookup fs k := by
  simp only [Fs.insert, Fs.lookup, if_neg (fun hc : t = k => h hc.symm)]
  exact Fs.lookup_eraseKey_ne fs k t h

theorem goIndexAux_append_self (h rest : GoStr) (hplus : '+' ∉ h) :
    goIndexAux (h ++ '+' :: rest) '+' = some h.length := by
  induction h with
  | nil => simp [goIndexAux]
  | cons x xs ih =>
    have hx : ¬ x = '+' := fun hc => hplus (hc ▸ List.mem_cons_self x xs)
    have hxs : '+' ∉ xs := fun hm => hplus (List.mem_cons_of_mem x hm)
    simp [goIndexAux, hx, ih hxs]

theorem locatorHash_append_sizeHint (h rest : GoStr) (hplus : '+' ∉ h)
    (h1 : 0 < h.length) :
    locatorHash (h ++ '+' :: rest) = h := by
  unfold locatorHash goIndex
  rw [goIndexAux_append_self h rest hplus]
  simp only [Int.toNat_natCast]
  rw [if_pos (by exact_mod_cast h1)]
  simp [List.take_left]

theorem locatorHash_no_plus (h : GoStr) (hplus : '+' ∉ h) : locatorHash h = h := by
  unfold locatorHash goIndex
  rw [goIndexAux_spec]
  simp [hplus]

/-- A locator made of a `+`-free hash followed by a size hint maps to
the same cache file as the bare hash: this is how a read for the
locator finds the block a write committed under its computed hash. -/
theorem cacheFile_append_sizeHint (dir h rest : GoStr) (hplus : '+' ∉ h)
    (h3 : 3 ≤ h.length) :
    cacheFile dir (h ++ '+' :: rest) = cacheFile dir h := by
  unfold cacheFile
  rw [locatorHash_append_sizeHint h rest hplus (by omega), locatorHash_no_plus h hplus]

/-- A trivially concrete upstream gateway, used to evaluate the models
on closed inputs. -/
def zeroUpstream : Upstream :=
  ⟨fun _ _ _ => (0, [], none), fun _ => ([], none), ⟨[]⟩, none⟩

/-- A read environment with a cold quick path and no injected faults. -/
def honestReadEnv : ReadAtEnv := ⟨false, false, false, false, false, false, false⟩

/-- C5 counterexample: for the locator `abc123+16` the code's
committed path is `D/abc/abc123.keepcacheblock`, not the spec's
`D/abc/abc123+16.keepcacheblock`: the remainder of the locator after
the hash is not part of the committed file name. -/
theorem cacheFile_omits_rest_of_locator :
    cacheFile "D".toList "abc123+16".toList =
      some "D/abc/abc123.keepcacheblock".toList ∧
    cacheFile "D".toList "abc123+16".toList ≠
      some (specCacheFilePath "D".toList "abc123+16".toList) := by
  constructor
  · decide
  · decide

/-- C5 witness: the amended path formula evaluated on the locator
`abc123+16`. -/
theorem cacheFile_formula_witness :
    3 ≤ (specHash "abc123+16".toList).length ∧
      cacheFile "D".toList "abc123+16".toList =
        some ("D".toList ++ ('/' :: (specHash "abc123+16".toList).take 3)
              ++ ('/' :: (specHash "abc123+16".toList ++ cacheFileSuffix))) :=
  ⟨by decide, cacheFile_formula "D".toList "abc123+16".toList (by decide)⟩

/-- C10 amended: for every locator whose hash as the code computes it
(the part before the first `+` when that `+` is at a positive index,
otherwise the whole locator) is shorter than three characters, both
`ReadAt` and `BlockRead` fault in `cacheFile` (out-of-range string
slice) instead of returning an error value. -/
theorem readAt_blockRead_fault_on_short_hash (dir locator : GoStr)
    (h3 : (locatorHash locator).length < 3) :
    (∀ u env fs dstLen offset, readAt dir u env fs locator dstLen offset = none) ∧
    (∀ u env fs, blockRead dir u env fs locator = none) := by
  have hcf : cacheFile dir locator = none := by
    unfold cacheFile
    rw [if_pos h3]
  constructor
  · intro u env fs dstLen offset
    unfold readAt
    rw [hcf]
  · intro u env fs
    unfold blockRead
    rw [hcf]

/-- C10 witness: the two-character locator `ab` makes both operations
fault. -/
theorem readAt_blockRead_fault_on_short_hash_witness :
    (locatorHash "ab".toList).length < 3 ∧
      readAt "D".toList zeroUpstream honestReadEnv [] "ab".toList 0 0 = none ∧
      blockRead "D".toList zeroUpstream ⟨false, false, false, false, false⟩ []
        "ab".toList = none :=
  ⟨by decide,
   (readAt_blockRead_fault_on_short_hash "D".toList "ab".toList (by decide)).1
     zeroUpstream honestReadEnv [] 0 0,
   (readAt_blockRead_fault_on_short_hash "D".toList "ab".toList (by decide)).2
     zeroUpstream ⟨false, false, false, false, false⟩ []⟩

/-- C10 counterexample: the locator `+ab` begins with `+`, so its
prefix before the first `+` is empty (shorter than three characters),
yet the code takes the whole locator as the hash and `ReadAt` returns
normally instead of faulting. -/
theorem readAt_short_spec_hash_no_fault :
    (specHash "+ab".toList).length < 3 ∧
      readAt "D".toList zeroUpstream honestReadEnv [] "+ab".toList 0 0 ≠ none := by
  constructor
  · decide
  · decide

/-- Invariant maintained by pool insertions: `heldopenMax` is either
unset or the computed cap, and the map never holds more than cap+1
entries. -/
def poolInv (rlim : Option Nat) (st : PoolState) : Prop :=
  (st.heldopenMax = 0 ∨ st.heldopenMax = computeHeldopenMax rlim) ∧
  poolSize st ≤ computeHeldopenMax rlim + 1

theorem quickInsert_inv (rlim : Option Nat) (st st2 : PoolState) (key : GoStr)
    (hinv : poolInv rlim st) (hstep : quickInsert rlim st key = some st2) :
    poolInv rlim st2 := by
  obtain ⟨hmx, hsz⟩ := hinv
  have hmx2 : (if st.heldopenMax = 0 then computeHeldopenMax rlim
               else st.heldopenMax) = computeHeldopenMax rlim := by
    rcases hmx with h0 | hc
    · rw [if_pos h0]
    · by_cases h0 : st.heldopenMax = 0
      · rw [if_pos h0]
      · rw [if_neg h0, hc]
  unfold quickInsert at hstep
  rw [hmx2] at hstep
  cases hh : st.heldopen with
  | none =>
    rw [hh] at hstep
    simp only [Option.some_inj] at hstep
    subst hstep
    exact ⟨Or.inr rfl, by simp [poolSize]⟩
  | some m =>
    rw [hh] at hstep
    dsimp only at hstep
    by_cases hmem : key ∈ m
    · rw [if_pos hmem] at hstep
      simp only [Option.some_inj] at hstep
      subst hstep
      refine ⟨Or.inr rfl, ?_⟩
      simpa [poolSize, hh] using hsz
    · rw [if_neg hmem] at hstep
      by_cases hover : m.length > computeHeldopenMax rlim
      · rw [if_pos hover] at hstep
        cases hstep
      · rw [if_neg hover] at hstep
        simp only [Option.some_inj] at hstep
        subst hstep
        refine ⟨Or.inr rfl, ?_⟩
        simp only [poolSize, Option.getD_some, List.length_cons]
        omega

theorem insertStep_none (rlim : Option Nat) (keys : List GoStr) :
    keys.foldl (insertStep rlim) none = none := by
  induction keys with
  | nil => rfl
  | cons k rest ih => simpa [insertStep] using ih

theorem runInserts_inv_aux (rlim : Option Nat) (keys : List GoStr) :
    ∀ st0 : PoolState, poolInv rlim st0 →
      ∀ st, keys.foldl (insertStep rlim) (some st0) = some st → poolInv rlim st := by
  induction keys with
  | nil =>
    intro st0 h0 st h
    simp only [List.foldl_nil, Option.some_inj] at h
    exact h ▸ h0
  | cons k rest ih =>
    intro st0 h0 st h
    simp only [List.foldl_cons, insertStep] at h
    cases hq : quickInsert rlim st0 k with
    | none =>
      rw [hq] at h
      rw [insertStep_none rlim rest] at h
      cases h
    | some st1 =>
      rw [hq] at h
      exact ih st1 (quickInsert_inv rlim st0 st1 k h0 hq) st h

/-- C3 amended: for every pool state reachable by a sequence of
`quickReadAt` insertions that does not fault, the number of entries in
the heldopen map never exceeds the computed cap **plus one** (the
over-capacity check `len(cache.heldopen) > cache.heldopenMax` runs
before the new entry is published, so the map can reach cap+1 entries). -/
theorem pool_size_le_cap_succ (rlim : Option Nat) (keys : List GoStr)
    (st : PoolState) (h : runInserts rlim keys = some st) :
    poolSize st ≤ computeHeldopenMax rlim + 1 :=
  (runInserts_inv_aux rlim keys initPool
    ⟨Or.inl rfl, by simp [poolSize, initPool]⟩ st h).2

/-- C3 witness: with a soft limit of 8 open files the cap is 2, and
inserting three distinct paths reaches 3 = cap + 1 entries. -/
theorem pool_size_le_cap_succ_witness :
    runInserts (some 8) ["a".toList, "b".toList, "c".toList] =
      some ⟨some ["c".toList, "b".toList, "a".toList], 2⟩ ∧
    poolSize ⟨some ["c".toList, "b".toList, "a".toList], 2⟩ ≤
      computeHeldopenMax (some 8) + 1 :=
  ⟨by decide,
   pool_size_le_cap_succ (some 8) ["a".toList, "b".toList, "c".toList] _ (by decide)⟩

/-- C3 counterexample: with a soft limit of 8 open files the computed
cap is 2, yet after inserting the three distinct paths a, b, c the
heldopen map holds 3 entries — the pool exceeds its cap. -/
theorem pool_size_exceeds_cap :
    runInserts (some 8) ["a".toList, "b".toList, "c".toList] =
      some ⟨some ["c".toList, "b".toList, "a".toList], 2⟩ ∧
    computeHeldopenMax (some 8) <
      poolSize ⟨some ["c".toList, "b".toList, "a".toList], 2⟩ := by
  constructor
  · decide
  · decide

/-- C4: the fourth insertion finds the pool over capacity (3 > 2),
detaches the map for background closing, sets `cache.heldopen = nil`,
and then executes `cache.heldopen[cachefilename] = heldopen` — an
assignment into a nil map, which is a Go runtime panic: publication
faults instead of landing in a fresh map. -/
theorem quickInsert_nil_map_assignment_faults :
    runInserts (some 8)
      ["a".toList, "b".toList, "c".toList, "d".toList] = none := by decide

theorem insertByAtime_perm (e : TidyEnt) (l : List TidyEnt) :
    (insertByAtime e l).Perm (e :: l) := by
  induction l with
  | nil => simp [insertByAtime]
  | cons x xs ih =>
    by_cases hc : e.atime < x.atime
    · simp [insertByAtime, hc]
    · simp only [insertByAtime, if_neg hc]
      exact (ih.cons x).trans (List.Perm.swap e x xs)

theorem insertByAtime_sorted (e : TidyEnt) (l : List TidyEnt)
    (h : List.Pairwise (fun a b : TidyEnt => a.atime ≤ b.atime) l) :
    List.Pairwise (fun a b : TidyEnt => a.atime ≤ b.atime) (insertByAtime e l) := by
  induction l with
  | nil => simp [insertByAtime]
  | cons x xs ih =>
    rcases List.pairwise_cons.mp h with ⟨hx, hxs⟩
    by_cases hc : e.atime < x.atime
    · simp only [insertByAtime, if_pos hc]
      refine List.pairwise_cons.mpr ⟨?_, h⟩
      intro b hb
      rcases List.mem_cons.mp hb with hb1 | hb2
      · exact hb1 ▸ le_of_lt hc
      · exact (le_of_lt hc).trans (hx b hb2)
    · simp only [insertByAtime, if_neg hc]
      refine List.pairwise_cons.mpr ⟨?_, ih hxs⟩
      intro b hb
      have hmem : b ∈ e :: xs := (insertByAtime_perm e xs).subset hb
      rcases List.mem_cons.mp hmem with hb1 | hb2
      · exact hb1 ▸ le_of_not_lt hc
      · exact hx b hb2

theorem sortByAtime_perm (l : List TidyEnt) : (sortByAtime l).Perm l := by
  induction l with
  | nil => rfl
  | cons e rest ih => exact (insertByAtime_perm e (sortByAtime rest)).trans (ih.cons e)

theorem sortByAtime_sorted (l : List TidyEnt) :
    List.Pairwise (fun a b : TidyEnt => a.atime ≤ b.atime) (sortByAtime l) := by
  induction l with
  | nil => simp [sortByAtime]
  | cons e rest ih => exact insertByAtime_sorted e (sortByAtime rest) ih

theorem totalSize_cons (e : TidyEnt) (l : List TidyEnt) :
    totalSize (e :: l) = e.size + totalSize l := by
  simp [totalSize]

theorem trimLoop_spec (maxsize : Int) (l : List TidyEnt) (total : Int)
    (h : maxsize < total) :
    (trimLoop maxsize l total).1 = l.take (trimLoop maxsize l total).1.length ∧
    (trimLoop maxsize l total).2 = total - totalSize (trimLoop maxsize l total).1 ∧
    ((trimLoop maxsize l total).2 ≤ maxsize ∨ (trimLoop maxsize l total).1 = l) ∧
    ∀ k < (trimLoop maxsize l total).1.length,
      maxsize < total - totalSize (l.take k) := by
  induction l generalizing total with
  | nil =>
    refine ⟨by simp [trimLoop], by simp [trimLoop, totalSize], Or.inr (by simp [trimLoop]), ?_⟩
    intro k hk
    simp [trimLoop] at hk
  | cons e rest ih =>
    by_cases hle : total - e.size ≤ maxsize
    · have hres : trimLoop maxsize (e :: rest) total = ([e], total - e.size) := by
        simp [trimLoop, hle]
      rw [hres]
      refine ⟨by simp, by simp [totalSize], Or.inl hle, ?_⟩
      intro k hk
      simp only [List.length_cons, List.length_nil, Nat.lt_one_iff] at hk
      have hk0 : k = 0 := by omega
      subst hk0
      simpa [totalSize] using h
    · have hlt : maxsize < total - e.size := by omega
      obtain ⟨ih1, ih2, ih3, ih4⟩ := ih (total - e.size) hlt
      have hres : trimLoop maxsize (e :: rest) total =
          (e :: (trimLoop maxsize rest (total - e.size)).1,
           (trimLoop maxsize rest (total - e.size)).2) := by
        simp [trimLoop, hle]
      rw [hres]
      refine ⟨?_, ?_, ?_, ?_⟩
      · simpa [List.take_cons] using ih1
      · rw [totalSize_cons]
        omega
      · rcases ih3 with h3 | h3
        · exact Or.inl h3
        · exact Or.inr (by rw [h3])
      · intro k hk
        cases k with
        | zero => simpa [totalSize] using h
        | succ j =>
          simp only [List.length_cons, Nat.succ_lt_succ_iff] at hk
          have := ih4 j hk
          simp only [List.take_succ_cons, totalSize_cons]
          omega

/-- C9: when the scanned total exceeds `maxsize`, tidy deletes a
prefix of the entries sorted by access time ascending (oldest first),
decrementing the running total by each deleted entry's size; the
result is within the budget unless everything was deleted, and every
shorter prefix would have left the total above the budget (deletion
stops as soon as the total is within it). -/
theorem tidy_trims_oldest_until_within (ents : List TidyEnt) (maxsize : Int)
    (h : maxsize < totalSize ents) :
    (sortByAtime ents).Perm ents ∧
    List.Pairwise (fun a b : TidyEnt => a.atime ≤ b.atime) (sortByAtime ents) ∧
    (tidyTrim ents maxsize).1 =
      (sortByAtime ents).take (tidyTrim ents maxsize).1.length ∧
    (tidyTrim ents maxsize).2 = totalSize ents - totalSize (tidyTrim ents maxsize).1 ∧
    ((tidyTrim ents maxsize).2 ≤ maxsize ∨ (tidyTrim ents maxsize).1 = sortByAtime ents) ∧
    ∀ k < (tidyTrim ents maxsize).1.length,
      maxsize < totalSize ents - totalSize ((sortByAtime ents).take k) := by
  have hne : ¬ totalSize ents ≤ maxsize := by omega
  have hres : tidyTrim ents maxsize =
      trimLoop maxsize (sortByAtime ents) (totalSize ents) := by
    simp [tidyTrim, hne]
  obtain ⟨h1, h2, h3, h4⟩ := trimLoop_spec maxsize (sortByAtime ents) (totalSize ents) h
  rw [hres]
  exact ⟨sortByAtime_perm ents, sortByAtime_sorted ents, h1, h2, h3, h4⟩

/-- C9 witness: `MaxSize = 1024` with three 512-byte blocks: exactly
the single block with the oldest access time is deleted, leaving a
total of 1024. -/
theorem tidy_trims_oldest_until_within_witness :
    (1024 : Int) < totalSize [⟨"p1".toList, 30, 512⟩, ⟨"p2".toList, 10, 512⟩,
      ⟨"p3".toList, 20, 512⟩] ∧
    tidyTrim [⟨"p1".toList, 30, 512⟩, ⟨"p2".toList, 10, 512⟩,
      ⟨"p3".toList, 20, 512⟩] 1024 = ([⟨"p2".toList, 10, 512⟩], 1024) ∧
    ((sortByAtime [⟨"p1".toList, 30, 512⟩, ⟨"p2".toList, 10, 512⟩,
        ⟨"p3".toList, 20, 512⟩]).Perm [⟨"p1".toList, 30, 512⟩,
        ⟨"p2".toList, 10, 512⟩, ⟨"p3".toList, 20, 512⟩] ∧
      List.Pairwise (fun a b : TidyEnt => a.atime ≤ b.atime)
        (sortByAtime [⟨"p1".toList, 30, 512⟩, ⟨"p2".toList, 10, 512⟩,
          ⟨"p3".toList, 20, 512⟩]) ∧
      (tidyTrim [⟨"p1".toList, 30, 512⟩, ⟨"p2".toList, 10, 512⟩,
          ⟨"p3".toList, 20, 512⟩] 1024).1 =
        (sortByAtime [⟨"p1".toList, 30, 512⟩, ⟨"p2".toList, 10, 512⟩,
          ⟨"p3".toList, 20, 512⟩]).take
          (tidyTrim [⟨"p1".toList, 30, 512⟩, ⟨"p2".toList, 10, 512⟩,
            ⟨"p3".toList, 20, 512⟩] 1024).1.length ∧
      (tidyTrim [⟨"p1".toList, 30, 512⟩, ⟨"p2".toList, 10, 512⟩,
          ⟨"p3".toList, 20, 512⟩] 1024).2 =
        totalSize [⟨"p1".toList, 30, 512⟩, ⟨"p2".toList, 10, 512⟩,
          ⟨"p3".toList, 20, 512⟩] -
        totalSize (tidyTrim [⟨"p1".toList, 30, 512⟩, ⟨"p2".toList, 10, 512⟩,
          ⟨"p3".toList, 20, 512⟩] 1024).1 ∧
      ((tidyTrim [⟨"p1".toList, 30, 512⟩, ⟨"p2".toList, 10, 512⟩,
          ⟨"p3".toList, 20, 512⟩] 1024).2 ≤ 1024 ∨
        (tidyTrim [⟨"p1".toList, 30, 512⟩, ⟨"p2".toList, 10, 512⟩,
          ⟨"p3".toList, 20, 512⟩] 1024).1 =
        sortByAtime [⟨"p1".toList, 30, 512⟩, ⟨"p2".toList, 10, 512⟩,
          ⟨"p3".toList, 20, 512⟩]) ∧
      ∀ k < (tidyTrim [⟨"p1".toList, 30, 512⟩, ⟨"p2".toList, 10, 512⟩,
          ⟨"p3".toList, 20, 512⟩] 1024).1.length,
        (1024 : Int) < totalSize [⟨"p1".toList, 30, 512⟩, ⟨"p2".toList, 10, 512⟩,
          ⟨"p3".toList, 20, 512⟩] -
          totalSize ((sortByAtime [⟨"p1".toList, 30, 512⟩, ⟨"p2".toList, 10, 512⟩,
            ⟨"p3".toList, 20, 512⟩]).take k)) :=
  ⟨by decide, by decide,
   tidy_trims_oldest_until_within
     [⟨"p1".toList, 30, 512⟩, ⟨"p2".toList, 10, 512⟩, ⟨"p3".toList, 20, 512⟩]
     1024 (by decide)⟩

theorem quickReadOk_cold (env : ReadAtEnv) (fs : Fs) (path : GoStr)
    (dstLen offset : Nat) (h : env.quickHealthy = false) :
    quickReadOk env fs path dstLen offset = none := by
  simp [quickReadOk, h]

/-- C7: on the slow read path (quick path cold), an open failure makes
`ReadAt` delegate to the upstream gateway and return its result; but
once the cache file is open, a shared-flock, seek, exclusive-flock or
seek-to-start failure is returned as the corresponding diagnostic
error with zero upstream calls. -/
theorem readAt_slow_path_error_handling (dir locator path : GoStr) (u : Upstream)
    (fs : Fs) (c : List Nat) (dstLen offset : Nat)
    (hpath : cacheFile dir locator = some path)
    (hfs : Fs.lookup fs path = some c) :
    (∀ env : ReadAtEnv, env.quickHealthy = false → env.openFail = true →
      readAt dir u env fs locator dstLen offset =
        some ⟨(u.readAtFn locator dstLen offset).1,
              (u.readAtFn locator dstLen offset).2.1,
              (u.readAtFn locator dstLen offset).2.2, 1, fs⟩) ∧
    (∀ env : ReadAtEnv, env.quickHealthy = false → env.openFail = false →
      env.flockShFail = true →
      readAt dir u env fs locator dstLen offset =
        some ⟨0, [], some .flockShErr, 0, fs⟩) ∧
    (∀ env : ReadAtEnv, env.quickHealthy = false → env.openFail = false →
      env.flockShFail = false → env.seekEndFail1 = true →
      readAt dir u env fs locator dstLen offset =
        some ⟨0, [], some .seekEndErr, 0, fs⟩) ∧
    (∀ env : ReadAtEnv, env.quickHealthy = false → env.openFail = false →
      env.flockShFail = false → env.seekEndFail1 = false →
      c.length < dstLen + offset → env.flockExFail = true →
      readAt dir u env fs locator dstLen offset =
        some ⟨0, [], some .flockExErr, 0, fs⟩) ∧
    (∀ env : ReadAtEnv, env.quickHealthy = false → env.openFail = false →
      env.flockShFail = false → env.seekEndFail1 = false →
      env.flockExFail = false → env.seekEndFail2 = true →
      readAt dir u env fs locator dstLen offset =
        some ⟨0, [], some .seekEndErr, 0, fs⟩) ∧
    (∀ env : ReadAtEnv, env.quickHealthy = false → env.openFail = false →
      env.flockShFail = false → env.seekEndFail1 = false →
      env.flockExFail = false → env.seekEndFail2 = false →
      c.length < dstLen + offset → env.seekStartFail = true →
      readAt dir u env fs locator dstLen offset =
        some ⟨0, [], some .seekStartErr, 0, fs⟩) := by
  have hsome : (Fs.lookup fs path).isSome = true := by rw [hfs]; rfl
  refine ⟨?_, ?_, ?_, ?_, ?_, ?_⟩
  · intro env hq ho
    simp [readAt, hpath, quickReadOk_cold env fs path dstLen offset hq, ho]
  · intro env hq ho hf
    simp [readAt, hpath, quickReadOk_cold env fs path dstLen offset hq, ho, hf, hsome]
  · intro env hq ho hf hs
    simp [readAt, hpath, quickReadOk_cold env fs path dstLen offset hq, ho, hf, hs,
      hsome]
  · intro env hq ho hf hs hsz hx
    simp [readAt, hpath, quickReadOk_cold env fs path dstLen offset hq, ho, hf, hs,
      hsome, hfs, hx, hsz]
  · intro env hq ho hf hs hx h2
    simp [readAt, hpath, quickReadOk_cold env fs path dstLen offset hq, ho, hf, hs,
      hsome, hfs, hx, h2]
  · intro env hq ho hf hs hx h2 hsz hstart
    simp [readAt, hpath, quickReadOk_cold env fs path dstLen offset hq, ho, hf, hs,
      hsome, hfs, hx, h2, hsz, hstart]

/-- C7 witness: with the cache file present but `open` failing, a read
of `abc+3` is served by the upstream gateway. -/
theorem readAt_slow_path_error_handling_witness :
    cacheFile "D".toList "abc+3".toList =
      some "D/abc/abc.keepcacheblock".toList ∧
    Fs.lookup [("D/abc/abc.keepcacheblock".toList, [1, 2, 3])]
      "D/abc/abc.keepcacheblock".toList = some [1, 2, 3] ∧
    readAt "D".toList zeroUpstream ⟨false, true, false, false, false, false, false⟩
      [("D/abc/abc.keepcacheblock".toList, [1, 2, 3])] "abc+3".toList 3 0 =
      some ⟨0, [], none, 1, [("D/abc/abc.keepcacheblock".toList, [1, 2, 3])]⟩ :=
  ⟨by decide, by decide,
   (readAt_slow_path_error_handling "D".toList "abc+3".toList
      "D/abc/abc.keepcacheblock".toList zeroUpstream
      [("D/abc/abc.keepcacheblock".toList, [1, 2, 3])] [1, 2, 3] 3 0
      (by decide) (by decide)).1
     ⟨false, true, false, false, false, false, false⟩ rfl rfl⟩

/-- An upstream gateway whose `BlockRead` streams the single byte 7,
used to observe upstream invocations on closed inputs. -/
def sevenUpstream : Upstream :=
  ⟨fun _ _ _ => (0, [], none), fun _ => ([7], none), ⟨[]⟩, none⟩

/-- C6 counterexample: the locator `abc` has no size hint, yet when
opening the cache file fails, `BlockRead` delegates to the upstream
gateway before validating the locator: the upstream is invoked once
and no invalid-locator error is returned. -/
theorem blockRead_invalid_locator_open_fail :
    goIndex "abc".toList '+' = -1 ∧
    blockRead "D".toList sevenUpstream ⟨true, false, false, false, false⟩ []
      "abc".toList = some ⟨1, [7], none, 1, []⟩ := by
  constructor
  · decide
  · decide

/-- C6 amended: provided opening or creating the cache file succeeds,
a `BlockRead` whose locator has no `+`-separated size hint, or whose
size hint does not parse as a non-negative 32-bit integer, returns the
corresponding invalid-locator error with zero upstream gateway calls. -/
theorem blockRead_invalid_locator_no_upstream (dir locator path : GoStr)
    (u : Upstream) (env : BlockReadEnv) (fs : Fs)
    (hpath : cacheFile dir locator = some path)
    (ho : env.openFail = false) :
    (goIndex locator '+' < 0 ∨ (locator.length : Int) ≤ goIndex locator '+' →
      blockRead dir u env fs locator =
        some ⟨0, [], some .invalidLocatorNoSizeHint, 0,
          if (Fs.lookup fs path).isSome then fs else Fs.insert fs path []⟩) ∧
    (¬ (goIndex locator '+' < 0 ∨ (locator.length : Int) ≤ goIndex locator '+') →
      parseInt32 (sizeHintStr locator) = none →
      blockRead dir u env fs locator =
        some ⟨0, [], some .invalidLocatorBadSizeHint, 0,
          if (Fs.lookup fs path).isSome then fs else Fs.insert fs path []⟩) ∧
    (∀ v : Int,
      ¬ (goIndex locator '+' < 0 ∨ (locator.length : Int) ≤ goIndex locator '+') →
      parseInt32 (sizeHintStr locator) = some v → v < 0 →
      blockRead dir u env fs locator =
        some ⟨0, [], some .invalidLocatorBadSizeHint, 0,
          if (Fs.lookup fs path).isSome then fs else Fs.insert fs path []⟩) := by
  refine ⟨?_, ?_, ?_⟩
  · intro hcond
    simp [blockRead, hpath, ho, hcond]
  · intro hcond hparse
    simp [blockRead, hpath, ho, hcond, hparse]
  · intro v hcond hparse hneg
    simp [blockRead, hpath, ho, hcond, hparse, hneg]

/-- C6 witness: with the cache file opening normally, the hint-less
locator `abc` yields the no-size-hint error and zero upstream calls. -/
theorem blockRead_invalid_locator_no_upstream_witness :
    cacheFile "D".toList "abc".toList =
      some "D/abc/abc.keepcacheblock".toList ∧
    (goIndex "abc".toList '+' < 0 ∨
      (("abc".toList : GoStr).length : Int) ≤ goIndex "abc".toList '+') ∧
    blockRead "D".toList sevenUpstream ⟨false, false, false, false, false⟩ []
      "abc".toList =
      some ⟨0, [], some .invalidLocatorNoSizeHint, 0,
        [("D/abc/abc.keepcacheblock".toList, [])]⟩ :=
  ⟨by decide, by decide,
   by
    have h := (blockRead_invalid_locator_no_upstream "D".toList "abc".toList
      "D/abc/abc.keepcacheblock".toList sevenUpstream
      ⟨false, false, false, false, false⟩ [] (by decide) rfl).1 (by decide)
    simpa using h⟩

theorem Fs.lookup_eraseKey_self (fs : Fs) (t : GoStr) :
    Fs.lookup (Fs.eraseKey fs t) t = none := by
  induction fs with
  | nil => rfl
  | cons kv rest ih =>
    rcases kv with ⟨k2, v⟩
    by_cases h2 : k2 = t
    · simp [Fs.eraseKey, h2, ih]
    · simp [Fs.eraseKey, h2, Fs.lookup, ih]

/-- C8: if the feeder recorded an error that was delivered before the
upstream `BlockWrite` returned, the call returns that feeder error
(with the upstream's response); otherwise it returns the upstream's
response and error unchanged. -/
theorem blockWrite_error_precedence (dir : GoStr) (md5hex : List Nat → GoStr)
    (u : Upstream) (env : BlockWriteEnv) (fs : Fs) (tmpname : GoStr)
    (opts : BlockWriteOpts) (fr : FeederResult)
    (hopen : env.tmpOpenFail = false)
    (hfr : feeder dir md5hex env fs tmpname opts = some fr) :
    (∀ e : Err, fr.copyerr = some e → env.feederErrDelivered = true →
      blockWrite dir md5hex u env fs tmpname opts =
        some ⟨u.blockWriteResp, some e, fr.committed, fr.fs, 1⟩) ∧
    (fr.copyerr = none ∨ env.feederErrDelivered = false →
      blockWrite dir md5hex u env fs tmpname opts =
        some ⟨u.blockWriteResp, u.blockWriteErr, fr.committed, fr.fs, 1⟩) := by
  constructor
  · intro e he hd
    simp [blockWrite, hopen, hfr, he, hd]
  · intro hcase
    rcases hcase with hnone | hlate
    · simp [blockWrite, hopen, hfr, hnone]
    · simp [blockWrite, hopen, hfr, hlate]

/-- A fixed stand-in for the MD5 hex digest function on closed inputs:
the digest of the five-byte block "hello". -/
def md5hello : List Nat → GoStr :=
  fun _ => "5d41402abc4b2a76b9719d911017c592".toList

/-- C8 witness: a hash-mismatch feeder error delivered before the
upstream returned is the error the call returns. -/
theorem blockWrite_error_precedence_witness :
    (⟨false, false, false, false, true⟩ : BlockWriteEnv).tmpOpenFail = false ∧
    feeder "D".toList md5hello ⟨false, false, false, false, true⟩ [] "T".toList
      ⟨some [104, 101, 108, 108, 111], [], 0,
        "deadbeefdeadbeefdeadbeefdeadbeef".toList⟩ =
      some ⟨some (.hashMismatch "5d41402abc4b2a76b9719d911017c592".toList
              "deadbeefdeadbeefdeadbeefdeadbeef".toList), none, []⟩ ∧
    blockWrite "D".toList md5hello zeroUpstream ⟨false, false, false, false, true⟩
      [] "T".toList
      ⟨some [104, 101, 108, 108, 111], [], 0,
        "deadbeefdeadbeefdeadbeefdeadbeef".toList⟩ =
      some ⟨⟨[]⟩, some (.hashMismatch "5d41402abc4b2a76b9719d911017c592".toList
              "deadbeefdeadbeefdeadbeefdeadbeef".toList), none, [], 1⟩ :=
  ⟨rfl, by decide,
   (blockWrite_error_precedence "D".toList md5hello zeroUpstream
      ⟨false, false, false, false, true⟩ [] "T".toList
      ⟨some [104, 101, 108, 108, 111], [], 0,
        "deadbeefdeadbeefdeadbeefdeadbeef".toList⟩
      ⟨some (.hashMismatch "5d41402abc4b2a76b9719d911017c592".toList
        "deadbeefdeadbeefdeadbeefdeadbeef".toList), none, []⟩
      rfl (by decide)).1
     (.hashMismatch "5d41402abc4b2a76b9719d911017c592".toList
        "deadbeefdeadbeefdeadbeefdeadbeef".toList) rfl rfl⟩

/-- C2 amended: on a size mismatch (positive DataSize different from
the copied byte count) or an MD5 mismatch against a provided expected
hash, the feeder records the corresponding error — which the call
returns exactly when it was recorded before the upstream returned,
and the upstream's error otherwise — and in all cases nothing is
renamed into the committed cache path and the temp file is removed. -/
theorem blockWrite_mismatch_no_commit (dir : GoStr) (md5hex : List Nat → GoStr)
    (u : Upstream) (env : BlockWriteEnv) (fs : Fs) (tmpname : GoStr)
    (opts : BlockWriteOpts) (src : List Nat)
    (hsrc : (match opts.Data with | some d => d | none => opts.Reader) = src)
    (hopen : env.tmpOpenFail = false) (hcopy : env.copyFail = false) :
    (0 < opts.DataSize ∧ opts.DataSize ≠ (src.length : Int) →
      blockWrite dir md5hex u env fs tmpname opts =
        some ⟨u.blockWriteResp,
          if env.feederErrDelivered
          then some (.sizeMismatch (src.length : Int) opts.DataSize)
          else u.blockWriteErr,
          none, Fs.eraseKey (Fs.insert fs tmpname src) tmpname, 1⟩ ∧
      Fs.lookup (Fs.eraseKey (Fs.insert fs tmpname src) tmpname) tmpname = none) ∧
    (¬ (0 < opts.DataSize ∧ opts.DataSize ≠ (src.length : Int)) →
      env.closeFail = false →
      opts.Hash ≠ [] ∧ opts.Hash ≠ md5hex src →
      blockWrite dir md5hex u env fs tmpname opts =
        some ⟨u.blockWriteResp,
          if env.feederErrDelivered
          then some (.hashMismatch (md5hex src) opts.Hash)
          else u.blockWriteErr,
          none, Fs.eraseKey (Fs.insert fs tmpname src) tmpname, 1⟩ ∧
      Fs.lookup (Fs.eraseKey (Fs.insert fs tmpname src) tmpname) tmpname = none) := by
  constructor
  · intro hmis
    refine ⟨?_, Fs.lookup_eraseKey_self _ _⟩
    cases hd : env.feederErrDelivered <;>
      simp [blockWrite, feeder, hsrc, hopen, hcopy, hmis, hd]
  · intro hsz hclose hmis
    refine ⟨?_, Fs.lookup_eraseKey_self _ _⟩
    cases hd : env.feederErrDelivered <;>
      simp [blockWrite, feeder, hsrc, hopen, hcopy, hsz, hclose, hmis, hd]

/-- C2 witness: `BlockWrite` of the two bytes 1, 2 with a claimed
DataSize of 5 returns the size-mismatch error, commits nothing, and
removes the temp file. -/
theorem blockWrite_mismatch_no_commit_witness :
    (0 < (5 : Int) ∧ (5 : Int) ≠ (([1, 2] : List Nat).length : Int)) ∧
    blockWrite "D".toList md5hello zeroUpstream ⟨false, false, false, false, true⟩
      [] "T".toList ⟨some [1, 2], [], 5, []⟩ =
      some ⟨⟨[]⟩,
        if (⟨false, false, false, false, true⟩ : BlockWriteEnv).feederErrDelivered
        then some (.sizeMismatch (([1, 2] : List Nat).length : Int) 5)
        else zeroUpstream.blockWriteErr,
        none, Fs.eraseKey (Fs.insert [] "T".toList [1, 2]) "T".toList, 1⟩ ∧
    Fs.lookup (Fs.eraseKey (Fs.insert [] "T".toList [1, 2]) "T".toList)
      "T".toList = none :=
  ⟨by decide,
   ((blockWrite_mismatch_no_commit "D".toList md5hello zeroUpstream
      ⟨false, false, false, false, true⟩ [] "T".toList ⟨some [1, 2], [], 5, []⟩
      [1, 2] rfl rfl rfl).1 (by decide)).1,
   ((blockWrite_mismatch_no_commit "D".toList md5hello zeroUpstream
      ⟨false, false, false, false, true⟩ [] "T".toList ⟨some [1, 2], [], 5, []⟩
      [1, 2] rfl rfl rfl).1 (by decide)).2⟩

/-- C2 counterexample: when the upstream returns before the feeder's
hash-mismatch error lands on the channel (`len(copyerr) == 0` at the
check), `BlockWrite` returns the upstream's nil error — no
hash-mismatch error is surfaced, though nothing was committed. -/
theorem blockWrite_hash_mismatch_error_lost :
    md5hello [104, 101, 108, 108, 111] ≠
      "deadbeefdeadbeefdeadbeefdeadbeef".toList ∧
    blockWrite "D".toList md5hello zeroUpstream ⟨false, false, false, false, false⟩
      [] "T".toList
      ⟨some [104, 101, 108, 108, 111], [], 0,
        "deadbeefdeadbeefdeadbeefdeadbeef".toList⟩ =
      some ⟨⟨[]⟩, none, none, [], 1⟩ := by
  constructor
  · decide
  · decide

/-- C1: round trip.  A `BlockWrite` of block `b` whose feeder commits
the cache file (no copy, size, hash, close or rename failure), followed
by a `ReadAt` for the locator derived from `b` (its digest, a `+`, and
a size hint) with a destination of length `len(b)` at offset 0, returns
exactly `b` with zero upstream gateway calls on the read — whether the
read is served by the heldopen quick path or the slow path. -/
theorem blockWrite_then_readAt_roundtrip (dir tmpname rest path : GoStr)
    (md5hex : List Nat → GoStr) (u : Upstream) (wenv : BlockWriteEnv)
    (renv : ReadAtEnv) (fs : Fs) (b : List Nat) (opts : BlockWriteOpts)
    (hdata : opts.Data = some b)
    (hsize : ¬ (0 < opts.DataSize ∧ opts.DataSize ≠ (b.length : Int)))
    (hhash : ¬ (opts.Hash ≠ [] ∧ opts.Hash ≠ md5hex b))
    (hplus : '+' ∉ md5hex b)
    (h3 : 3 ≤ (md5hex b).length)
    (hpath : cacheFile dir (md5hex b) = some path)
    (htmp : tmpname ≠ path)
    (hw1 : wenv.tmpOpenFail = false) (hw2 : wenv.copyFail = false)
    (hw3 : wenv.closeFail = false) (hw4 : wenv.renameFail = false)
    (hr1 : renv.openFail = false) (hr2 : renv.flockShFail = false)
    (hr3 : renv.seekEndFail1 = false) (hr4 : renv.seekEndFail2 = false) :
    blockWrite dir md5hex u wenv fs tmpname opts =
      some ⟨u.blockWriteResp, u.blockWriteErr, some path,
        Fs.eraseKey (Fs.insert (Fs.eraseKey (Fs.insert fs tmpname b) tmpname)
          path b) tmpname, 1⟩ ∧
    readAt dir u renv
      (Fs.eraseKey (Fs.insert (Fs.eraseKey (Fs.insert fs tmpname b) tmpname)
        path b) tmpname)
      (md5hex b ++ '+' :: rest) b.length 0 =
      some ⟨b.length, b, none, 0,
        Fs.eraseKey (Fs.insert (Fs.eraseKey (Fs.insert fs tmpname b) tmpname)
          path b) tmpname⟩ := by
  have hfr : feeder dir md5hex wenv fs tmpname opts =
      some ⟨none, some path,
        Fs.eraseKey (Fs.insert (Fs.eraseKey (Fs.insert fs tmpname b) tmpname)
          path b) tmpname⟩ := by
    simp [feeder, hdata, hw2, hsize, hw3, hhash, hpath, hw4]
  have hbw : blockWrite dir md5hex u wenv fs tmpname opts =
      some ⟨u.blockWriteResp, u.blockWriteErr, some path,
        Fs.eraseKey (Fs.insert (Fs.eraseKey (Fs.insert fs tmpname b) tmpname)
          path b) tmpname, 1⟩ := by
    simp [blockWrite, hw1, hfr]
  refine ⟨hbw, ?_⟩
  have hlook : Fs.lookup
      (Fs.eraseKey (Fs.insert (Fs.eraseKey (Fs.insert fs tmpname b) tmpname)
        path b) tmpname) path = some b := by
    rw [Fs.lookup_eraseKey_ne _ path tmpname (fun hc => htmp hc.symm)]
    exact Fs.lookup_insert _ path b
  have hpath2 : cacheFile dir (md5hex b ++ '+' :: rest) = some path := by
    rw [cacheFile_append_sizeHint dir (md5hex b) rest hplus h3]
    exact hpath
  cases hq : renv.quickHealthy with
  | true => simp [readAt, hpath2, quickReadOk, hq, hlook]
  | false =>
    simp [readAt, hpath2, quickReadOk, hq, hlook, hr1, hr2, hr3, hr4, goReadAt]

/-- C1 witness: writing the block "hello" and reading it back through
its locator `5d41402abc4b2a76b9719d911017c592+5` returns the same five
bytes with zero upstream calls. -/
theorem blockWrite_then_readAt_roundtrip_witness :
    cacheFile "D".toList (md5hello [104, 101, 108, 108, 111]) =
      some "D/5d4/5d41402abc4b2a76b9719d911017c592.keepcacheblock".toList ∧
    (blockWrite "D".toList md5hello zeroUpstream ⟨false, false, false, false, false⟩
        [] "D/tmp/x.tmp".toList ⟨some [104, 101, 108, 108, 111], [], 0, []⟩ =
      some ⟨⟨[]⟩, none,
        some "D/5d4/5d41402abc4b2a76b9719d911017c592.keepcacheblock".toList,
        Fs.eraseKey (Fs.insert (Fs.eraseKey (Fs.insert [] "D/tmp/x.tmp".toList
          [104, 101, 108, 108, 111]) "D/tmp/x.tmp".toList)
          "D/5d4/5d41402abc4b2a76b9719d911017c592.keepcacheblock".toList
          [104, 101, 108, 108, 111]) "D/tmp/x.tmp".toList, 1⟩ ∧
     readAt "D".toList zeroUpstream honestReadEnv
        (Fs.eraseKey (Fs.insert (Fs.eraseKey (Fs.insert [] "D/tmp/x.tmp".toList
          [104, 101, 108, 108, 111]) "D/tmp/x.tmp".toList)
          "D/5d4/5d41402abc4b2a76b9719d911017c592.keepcacheblock".toList
          [104, 101, 108, 108, 111]) "D/tmp/x.tmp".toList)
        (md5hello [104, 101, 108, 108, 111] ++ '+' :: "5".toList)
        ([104, 101, 108, 108, 111] : List Nat).length 0 =
      some ⟨([104, 101, 108, 108, 111] : List Nat).length,
        [104, 101, 108, 108, 111], none, 0,
        Fs.eraseKey (Fs.insert (Fs.eraseKey (Fs.insert [] "D/tmp/x.tmp".toList
          [104, 101, 108, 108, 111]) "D/tmp/x.tmp".toList)
          "D/5d4/5d41402abc4b2a76b9719d911017c592.keepcacheblock".toList
          [104, 101, 108, 108, 111]) "D/tmp/x.tmp".toList⟩) :=
  ⟨by decide,
   blockWrite_then_readAt_roundtrip "D".toList "D/tmp/x.tmp".toList "5".toList
     "D/5d4/5d41402abc4b2a76b9719d911017c592.keepcacheblock".toList md5hello
     zeroUpstream ⟨false, false, false, false, false⟩ honestReadEnv []
     [104, 101, 108, 108, 111] ⟨some [104, 101, 108, 108, 111], [], 0, []⟩
     rfl (by decide) (by decide) (by decide) (by decide) (by decide) (by decide)
     rfl rfl rfl rfl rfl rfl rfl rfl⟩
